import Mathlib

/-!
Shallow embedding of the trade-execution and portfolio-valuation engine of
`src/pokemon-markets/js/data/mock-data.js`.

JavaScript numbers are modelled as exact rationals (ℚ); `Math.floor` is
`Int.floor` and `Number(x.toFixed(2))` is round-to-nearest of `100 * x`
divided by 100.  The mutable module-level state (`mockMarkets`, `mockUser`,
`mockPositions`, `mockTransactions`) is threaded explicitly as a
`TradeState` value; `Date.now()` / `new Date()` is an explicit `now`
parameter.
-/

/-- A market, as in the `mockMarkets` records (the fields the engine reads). -/
structure Market where
  id : Int
  yesPrice : ℚ
  noPrice : ℚ
  totalVolume : ℚ
  status : String
  deriving Repr, DecidableEq

/-- A position, as in the `mockPositions` records. -/
structure Position where
  id : String
  marketId : Int
  side : String
  shares : ℚ
  avgPrice : ℚ
  invested : ℚ
  purchaseDate : Int
  deriving Repr, DecidableEq

/-- The `details` object of a trade transaction. -/
structure TxDetails where
  marketId : Int
  side : String
  shares : ℚ
  price : ℚ
  deriving Repr, DecidableEq

/-- A transaction record, as in `mockTransactions`. -/
structure Transaction where
  id : String
  type : String
  amount : ℚ
  timestamp : Int
  details : TxDetails
  deriving Repr, DecidableEq

/-- The mutable module state of `mock-data.js` that `placeTrade` touches:
`mockMarkets`, `mockUser.balance`, `mockPositions`, `mockTransactions`. -/
structure TradeState where
  markets : List Market
  userBalance : ℚ
  positions : List Position
  transactions : List Transaction
  deriving Repr, DecidableEq

/-- The typed errors thrown by `placeTrade` (lines 306-316). -/
inductive TradeError where
  | marketNotFound
  | invalidAmount
  | insufficientBalance
  deriving Repr, DecidableEq

/-- The object returned by `placeTrade` on success (lines 367-374). -/
structure TradeResult where
  shares : ℚ
  actualCost : ℚ
  price : ℚ
  newBalance : ℚ
  position : Position
  deriving Repr, DecidableEq

/-- The predicate of the `findIndex` callback on line 327:
`p.marketId === marketId && p.side === side`. -/
def matchKey (marketId : Int) (side : String) (p : Position) : Bool :=
  p.marketId == marketId && p.side == side

/-- Lines 326-355 of `placeTrade`: update the first position matching
`(marketId, side)` in place, or push a new position at the end.  Returns the
resulting position together with the updated list (the JS code reads the
result back out of the array on line 373).  Caveat: the merge's `avgPrice :=
totalInvested / totalShares` (line 335) is written here with ℚ's total
division, which returns `0` on a zero denominator, whereas the source's IEEE
division returns `NaN` there; `jsDiv` below records exactly where the two
semantics part ways (denominator zero), and the reachable zero-share merge
that hits this case is exhibited in the C6 counterexample. -/
def upsertPosition (now : Int) (marketId : Int) (side : String)
    (shares actualCost price : ℚ) :
    List Position → Position × List Position
  | [] =>
      let newPosition : Position :=
        { id := "pos_" ++ toString now
          marketId := marketId
          side := side
          shares := shares
          avgPrice := price
          invested := actualCost
          purchaseDate := now }
      (newPosition, [newPosition])
  | p :: rest =>
      if matchKey marketId side p then
        let totalShares := p.shares + shares
        let totalInvested := p.invested + actualCost
        let merged : Position :=
          { p with
              shares := totalShares
              avgPrice := totalInvested / totalShares
              invested := totalInvested }
        (merged, merged :: rest)
      else
        let r := upsertPosition now marketId side shares actualCost price rest
        (r.1, p :: r.2)

/-- `placeTrade(marketId, side, investment)`, lines 301-375 of
`mock-data.js`, with the module state passed explicitly and the clock as
`now`.  The validation order is the source order: market lookup (305-308),
`investment <= 0` (310-312), `investment > mockUser.balance` (314-316); the
market's `status` field is never consulted.  On success the balance is
decremented by `actualCost`, the position is upserted and a transaction is
appended. -/
def placeTrade (now : Int) (marketId : Int) (side : String) (investment : ℚ)
    (s : TradeState) : Except TradeError TradeResult × TradeState :=
  match s.markets.find? (fun m => m.id == marketId) with
  | none => (Except.error TradeError.marketNotFound, s)
  | some market =>
    if investment ≤ 0 then
      (Except.error TradeError.invalidAmount, s)
    else if investment > s.userBalance then
      (Except.error TradeError.insufficientBalance, s)
    else
      let price := if side == "yes" then market.yesPrice else market.noPrice
      let shares : ℚ := (⌊investment / price * 100⌋ : ℚ) / 100
      let actualCost := shares * price
      let newBalance := s.userBalance - actualCost
      let upserted := upsertPosition now marketId side shares actualCost price s.positions
      let newTransaction : Transaction :=
        { id := "txn_" ++ toString now
          type := "trade"
          amount := -actualCost
          timestamp := now
          details := { marketId := marketId, side := side, shares := shares, price := price } }
      (Except.ok
        { shares := shares
          actualCost := actualCost
          price := price
          newBalance := newBalance
          position := upserted.1 },
       { s with
          userBalance := newBalance
          positions := upserted.2
          transactions := s.transactions ++ [newTransaction] })

/-- `Math.max(0.01, Math.min(0.99, x))`, lines 234-235. -/
def clampPrice (x : ℚ) : ℚ := max (1 / 100) (min (99 / 100) x)

/-- `Number(x.toFixed(2))`, lines 243-244: round to two decimal places. -/
def round2 (x : ℚ) : ℚ := (round (x * 100) : ℚ) / 100

/-- The per-market price refresh of `fetchMarkets`, lines 232-246: perturb
each price by its delta, clamp to `[0.01, 0.99]`, then divide each by their
sum and round to two decimals. -/
def refreshMarket (dYes dNo : ℚ) (m : Market) : Market :=
  let yes1 := clampPrice (m.yesPrice + dYes)
  let no1 := clampPrice (m.noPrice + dNo)
  let total := yes1 + no1
  { m with
      yesPrice := round2 (yes1 / total)
      noPrice := round2 (no1 / total) }

/-- The object returned by `calculatePortfolioValue`, lines 422-427. -/
structure PortfolioSummary where
  totalValue : ℚ
  totalInvested : ℚ
  pnl : ℚ
  pnlPercentage : ℚ
  deriving Repr, DecidableEq

/-- The body of the `positions.forEach` loop, lines 409-417: accumulate
`(totalValue, totalInvested)`, skipping positions whose market is missing. -/
def portfolioStep (markets : List Market) (acc : ℚ × ℚ) (position : Position) : ℚ × ℚ :=
  match markets.find? (fun m => m.id == position.marketId) with
  | some market =>
      let currentPrice :=
        if position.side == "yes" then market.yesPrice else market.noPrice
      let currentValue := position.shares * currentPrice
      (acc.1 + currentValue, acc.2 + position.invested)
  | none => acc

/-- `calculatePortfolioValue(positions, markets)`, lines 405-428: fold over
the positions, skipping those whose market is not found. -/
def calculatePortfolioValue (positions : List Position) (markets : List Market) :
    PortfolioSummary :=
  let acc := positions.foldl (portfolioStep markets) (0, 0)
  let totalValue := acc.1
  let totalInvested := acc.2
  let pnl := totalValue - totalInvested
  let pnlPercentage := if totalInvested > 0 then pnl / totalInvested * 100 else 0
  { totalValue := totalValue
    totalInvested := totalInvested
    pnl := pnl
    pnlPercentage := pnlPercentage }

/-- The six `mockMarkets` entries (lines 21-94), restricted to the fields
the engine reads. -/
def mockMarkets : List Market :=
  [ { id := 1, yesPrice := 0.68, noPrice := 0.32, totalVolume := 2450, status := "active" },
    { id := 2, yesPrice := 0.45, noPrice := 0.55, totalVolume := 1820, status := "active" },
    { id := 3, yesPrice := 0.72, noPrice := 0.28, totalVolume := 3100, status := "active" },
    { id := 4, yesPrice := 0.38, noPrice := 0.62, totalVolume := 1950, status := "active" },
    { id := 5, yesPrice := 0.25, noPrice := 0.75, totalVolume := 890, status := "active" },
    { id := 6, yesPrice := 0.58, noPrice := 0.42, totalVolume := 2680, status := "active" } ]

/-- The two `mockPositions` entries (lines 126-145), with timestamps as
integers. -/
def mockPositions : List Position :=
  [ { id := "pos_1", marketId := 1, side := "yes", shares := 25,
      avgPrice := 0.65, invested := 16.25, purchaseDate := 1726396200 },
    { id := "pos_2", marketId := 3, side := "no", shares := 15,
      avgPrice := 0.30, invested := 4.50, purchaseDate := 1726669200 } ]

/-- The initial module state: `mockMarkets`, `mockUser.balance = 1000.00`,
`mockPositions`, and an empty transaction log suffices for the claims. -/
def mockState : TradeState :=
  { markets := mockMarkets
    userBalance := 1000
    positions := mockPositions
    transactions := [] }

/-- One trade request: the arguments of a `placeTrade` call plus the clock. -/
structure TradeRequest where
  now : Int
  marketId : Int
  side : String
  investment : ℚ
  deriving Repr, DecidableEq

/-- Run a sequence of `placeTrade` calls, keeping the final state (failed
calls leave the state as they found it). -/
def runTrades (s : TradeState) (reqs : List TradeRequest) : TradeState :=
  reqs.foldl (fun st r => (placeTrade r.now r.marketId r.side r.investment st).2) s

/-- The per-position ledger invariant: nonnegative shares and invested
capital, with `invested = shares * avgPrice`. -/
def positionOk (p : Position) : Prop :=
  0 ≤ p.shares ∧ 0 ≤ p.invested ∧ p.invested = p.shares * p.avgPrice

/-- At most one position per `(marketId, side)` key. -/
def atMostOnePerKey (ps : List Position) : Prop :=
  ps.Pairwise (fun p q => ¬(p.marketId = q.marketId ∧ p.side = q.side))

instance (p : Position) : Decidable (positionOk p) := by
  unfold positionOk; infer_instance

/-- JavaScript division restricted to where it yields a (finite) number:
`a / b` in the source is an IEEE operation whose result on `b = 0` is `NaN`
(for `a = 0`) or `±Infinity` — in either case not a rational.  `jsDiv`
returns `none` exactly there, and elsewhere agrees with ℚ division.  It
records where this file's total ℚ division diverges from the source. -/
def jsDiv (a b : ℚ) : Option ℚ :=
  if b = 0 then none else some (a / b)

/-! ### Helper lemmas about `placeTrade` and `upsertPosition` -/

/-- Truncating shares to two decimals never overspends: with a positive
price, `floor(investment / price * 100) / 100 * price ≤ investment`. -/
theorem floorShares_mul_le (investment price : ℚ) (hp : 0 < price) :
    (⌊investment / price * 100⌋ : ℚ) / 100 * price ≤ investment := by
  have h1 : (⌊investment / price * 100⌋ : ℚ) ≤ investment / price * 100 :=
    Int.floor_le _
  have h2 : (⌊investment / price * 100⌋ : ℚ) / 100 ≤ investment / price :=
    (div_le_iff₀ (by norm_num : (0 : ℚ) < 100)).mpr h1
  calc (⌊investment / price * 100⌋ : ℚ) / 100 * price
      ≤ investment / price * price := mul_le_mul_of_nonneg_right h2 hp.le
    _ = investment := div_mul_cancel₀ investment hp.ne.symm

/-- Reduction of `placeTrade` when all three validations pass. -/
theorem placeTrade_success (now marketId : Int) (side : String) (investment : ℚ)
    (s : TradeState) (market : Market)
    (hm : s.markets.find? (fun m => m.id == marketId) = some market)
    (h1 : 0 < investment) (h2 : investment ≤ s.userBalance) :
    placeTrade now marketId side investment s =
      (let price := if side == "yes" then market.yesPrice else market.noPrice
       let shares : ℚ := (⌊investment / price * 100⌋ : ℚ) / 100
       let actualCost := shares * price
       let upserted := upsertPosition now marketId side shares actualCost price s.positions
       (Except.ok
          { shares := shares
            actualCost := actualCost
            price := price
            newBalance := s.userBalance - actualCost
            position := upserted.1 },
        { s with
            userBalance := s.userBalance - actualCost
            positions := upserted.2
            transactions := s.transactions ++
              [{ id := "txn_" ++ toString now
                 type := "trade"
                 amount := -actualCost
                 timestamp := now
                 details := { marketId := marketId, side := side, shares := shares,
                              price := price } }] })) := by
  unfold placeTrade
  rw [hm]
  dsimp only
  rw [if_neg (not_le.mpr h1), if_neg (not_lt.mpr h2)]

/-- `placeTrade` never touches the markets array. -/
theorem placeTrade_markets (now marketId : Int) (side : String) (investment : ℚ)
    (s : TradeState) :
    ((placeTrade now marketId side investment s).2).markets = s.markets := by
  unfold placeTrade
  cases s.markets.find? (fun m => m.id == marketId) with
  | none => rfl
  | some market =>
    by_cases h1 : investment ≤ 0
    · simp only [if_pos h1]
    · by_cases h2 : investment > s.userBalance
      · simp only [if_neg h1, if_pos h2]
      · simp only [if_neg h1, if_neg h2]

/-- A failed validation leaves the state exactly as it was. -/
theorem placeTrade_error_state (now marketId : Int) (side : String) (investment : ℚ)
    (s : TradeState) (e : TradeError)
    (h : (placeTrade now marketId side investment s).1 = Except.error e) :
    (placeTrade now marketId side investment s).2 = s := by
  unfold placeTrade at h ⊢
  cases hm : s.markets.find? (fun m => m.id == marketId) with
  | none => rfl
  | some market =>
    rw [hm] at h
    dsimp only at h ⊢
    by_cases h1 : investment ≤ 0
    · rw [if_pos h1]
    · by_cases h2 : investment > s.userBalance
      · rw [if_neg h1, if_pos h2]
      · rw [if_neg h1, if_neg h2] at h
        exact absurd h (by simp)

/-- `matchKey` decides equality of the `(marketId, side)` key. -/
theorem matchKey_iff (marketId : Int) (side : String) (p : Position) :
    matchKey marketId side p = true ↔ p.marketId = marketId ∧ p.side = side := by
  simp [matchKey]

/-- When no position matches the key, `upsertPosition` pushes a fresh
position at the end of the list and returns it. -/
theorem upsertPosition_create (now marketId : Int) (side : String) (sh c pr : ℚ)
    (l : List Position) (h : ∀ q ∈ l, matchKey marketId side q = false) :
    upsertPosition now marketId side sh c pr l =
      ({ id := "pos_" ++ toString now, marketId := marketId, side := side,
         shares := sh, avgPrice := pr, invested := c, purchaseDate := now },
       l ++ [{ id := "pos_" ++ toString now, marketId := marketId, side := side,
               shares := sh, avgPrice := pr, invested := c, purchaseDate := now }]) := by
  induction l with
  | nil => rfl
  | cons p rest ih =>
    have hp : matchKey marketId side p = false := h p (List.mem_cons_self p rest)
    have ih' := ih (fun q hq => h q (List.mem_cons_of_mem p hq))
    simp only [upsertPosition, hp, Bool.false_eq_true, if_false, ih', List.cons_append]

/-- When the key's first match is `old`, `upsertPosition` replaces it in
place by the merged position and returns the merged position. -/
theorem upsertPosition_merge (now marketId : Int) (side : String) (sh c pr : ℚ)
    (pre : List Position) (old : Position) (post : List Position)
    (hpre : ∀ q ∈ pre, matchKey marketId side q = false)
    (hold : matchKey marketId side old = true) :
    upsertPosition now marketId side sh c pr (pre ++ old :: post) =
      ({ old with shares := old.shares + sh,
                  avgPrice := (old.invested + c) / (old.shares + sh),
                  invested := old.invested + c },
       pre ++ { old with shares := old.shares + sh,
                         avgPrice := (old.invested + c) / (old.shares + sh),
                         invested := old.invested + c } :: post) := by
  induction pre with
  | nil => simp only [List.nil_append, upsertPosition, hold, if_true]
  | cons p pre ih =>
    have hp : matchKey marketId side p = false := hpre p (List.mem_cons_self p pre)
    have ih' := ih (fun q hq => hpre q (List.mem_cons_of_mem p hq))
    have ih2 : upsertPosition now marketId side sh c pr (List.append pre (old :: post)) = _ := ih'
    simp only [List.cons_append, upsertPosition, hp, Bool.false_eq_true, if_false, ih', ih2]

/-- Merging into a singleton list whose only element matches the key. -/
theorem upsertPosition_merge_singleton (now marketId : Int) (side : String)
    (sh c pr : ℚ) (old : Position) (hold : matchKey marketId side old = true) :
    upsertPosition now marketId side sh c pr [old] =
      ({ old with shares := old.shares + sh,
                  avgPrice := (old.invested + c) / (old.shares + sh),
                  invested := old.invested + c },
       [{ old with shares := old.shares + sh,
                   avgPrice := (old.invested + c) / (old.shares + sh),
                   invested := old.invested + c }]) := by
  have h := upsertPosition_merge now marketId side sh c pr [] old []
    (by intro q hq; simp at hq) hold
  simpa using h

/-- Every position in the output of `upsertPosition` either carries the key
of some input position or carries the upserted key. -/
theorem upsertPosition_mem (now marketId : Int) (side : String) (sh c pr : ℚ)
    (l : List Position) :
    ∀ q ∈ (upsertPosition now marketId side sh c pr l).2,
      (∃ q₀ ∈ l, q.marketId = q₀.marketId ∧ q.side = q₀.side) ∨
        (q.marketId = marketId ∧ q.side = side) := by
  induction l with
  | nil =>
    intro q hq
    simp only [upsertPosition, List.mem_singleton] at hq
    subst hq
    exact Or.inr ⟨rfl, rfl⟩
  | cons p rest ih =>
    intro q hq
    by_cases hm : matchKey marketId side p = true
    · simp only [upsertPosition, hm, if_true] at hq
      rcases List.mem_cons.mp hq with h' | h'
      · subst h'
        exact Or.inl ⟨p, List.mem_cons_self p rest, rfl, rfl⟩
      · exact Or.inl ⟨q, List.mem_cons_of_mem p h', rfl, rfl⟩
    · have hm' : matchKey marketId side p = false := Bool.eq_false_iff.mpr hm
      simp only [upsertPosition, hm', Bool.false_eq_true, if_false] at hq
      rcases List.mem_cons.mp hq with h' | h'
      · subst h'
        exact Or.inl ⟨q, List.mem_cons_self q rest, rfl, rfl⟩
      · rcases ih q h' with ⟨q₀, hq₀, hk⟩ | hk
        · exact Or.inl ⟨q₀, List.mem_cons_of_mem p hq₀, hk⟩
        · exact Or.inr hk

/-- After an upsert, some position carries the upserted key. -/
theorem upsertPosition_key_mem (now marketId : Int) (side : String) (sh c pr : ℚ)
    (l : List Position) :
    ∃ q ∈ (upsertPosition now marketId side sh c pr l).2,
      q.marketId = marketId ∧ q.side = side := by
  induction l with
  | nil =>
    exact ⟨_, List.mem_singleton_self _, rfl, rfl⟩
  | cons p rest ih =>
    by_cases hm : matchKey marketId side p = true
    · obtain ⟨h1, h2⟩ := (matchKey_iff marketId side p).mp hm
      have hmem : ({ p with shares := p.shares + sh, avgPrice := (p.invested + c) / (p.shares + sh), invested := p.invested + c } : Position) ∈ (upsertPosition now marketId side sh c pr (p :: rest)).2 := by
        simp only [upsertPosition, hm, if_true]
        exact List.mem_cons_self _ _
      exact ⟨_, hmem, h1, h2⟩
    · have hm' : matchKey marketId side p = false := Bool.eq_false_iff.mpr hm
      obtain ⟨q, hq, hk⟩ := ih
      refine ⟨q, ?_, hk⟩
      simp only [upsertPosition, hm', Bool.false_eq_true, if_false]
      exact List.mem_cons_of_mem p hq

/-- Upserting preserves key uniqueness of the position list. -/
theorem upsertPosition_pairwise (now marketId : Int) (side : String) (sh c pr : ℚ)
    (l : List Position) (h : atMostOnePerKey l) :
    atMostOnePerKey (upsertPosition now marketId side sh c pr l).2 := by
  induction l with
  | nil =>
    simp [upsertPosition, atMostOnePerKey]
  | cons p rest ih =>
    unfold atMostOnePerKey at h ⊢
    rcases List.pairwise_cons.mp h with ⟨hp, hrest⟩
    by_cases hm : matchKey marketId side p = true
    · simp only [upsertPosition, hm, if_true]
      exact List.pairwise_cons.mpr ⟨fun q hq => hp q hq, hrest⟩
    · have hm' : matchKey marketId side p = false := Bool.eq_false_iff.mpr hm
      simp only [upsertPosition, hm', Bool.false_eq_true, if_false]
      refine List.pairwise_cons.mpr ⟨?_, ih hrest⟩
      intro q hq
      rcases upsertPosition_mem now marketId side sh c pr rest q hq with ⟨q₀, hq₀, hk1, hk2⟩ | ⟨hk1, hk2⟩
      · intro ⟨e1, e2⟩
        exact hp q₀ hq₀ ⟨e1.trans hk1, e2.trans hk2⟩
      · intro ⟨e1, e2⟩
        exact hm ((matchKey_iff marketId side p).mpr ⟨e1.trans hk1, e2.trans hk2⟩)

/-- Upserting with `actualCost = shares * price` (as `placeTrade` does)
preserves the per-position ledger invariant. -/
theorem upsertPosition_positionOk (now marketId : Int) (side : String) (sh pr : ℚ)
    (hsh : 0 ≤ sh) (hpr : 0 ≤ pr) (l : List Position) (h : ∀ p ∈ l, positionOk p) :
    ∀ q ∈ (upsertPosition now marketId side sh (sh * pr) pr l).2, positionOk q := by
  induction l with
  | nil =>
    intro q hq
    simp only [upsertPosition, List.mem_singleton] at hq
    subst hq
    exact ⟨hsh, mul_nonneg hsh hpr, rfl⟩
  | cons p rest ih =>
    intro q hq
    by_cases hm : matchKey marketId side p = true
    · simp only [upsertPosition, hm, if_true] at hq
      rcases List.mem_cons.mp hq with h' | h'
      · subst h'
        obtain ⟨hps, hpi, hpe⟩ := h p (List.mem_cons_self p rest)
        refine ⟨add_nonneg hps hsh, add_nonneg hpi (mul_nonneg hsh hpr), ?_⟩
        show p.invested + sh * pr =
          (p.shares + sh) * ((p.invested + sh * pr) / (p.shares + sh))
        by_cases hz : p.shares + sh = 0
        · have hs0 : p.shares = 0 := le_antisymm (by linarith) hps
          have hsh0 : sh = 0 := le_antisymm (by linarith) hsh
          have hi0 : p.invested = 0 := by rw [hpe, hs0, zero_mul]
          rw [hs0, hsh0, hi0]
          norm_num
        · rw [mul_div_cancel₀ _ hz]
      · exact h q (List.mem_cons_of_mem p h')
    · have hm' : matchKey marketId side p = false := Bool.eq_false_iff.mpr hm
      simp only [upsertPosition, hm', Bool.false_eq_true, if_false] at hq
      rcases List.mem_cons.mp hq with h' | h'
      · rw [h']
        exact h p (List.mem_cons_self p rest)
      · exact ih (fun r hr => h r (List.mem_cons_of_mem p hr)) q h'

/-- Unrolling the portfolio fold: the accumulator collects the sum of the
per-position current values and invested amounts, with missing markets
contributing zero. -/
theorem portfolioStep_foldl (markets : List Market) (positions : List Position) (a b : ℚ) :
    positions.foldl (portfolioStep markets) (a, b) =
      (a + (positions.map fun p =>
              match markets.find? (fun m => m.id == p.marketId) with
              | some market =>
                  p.shares * (if p.side == "yes" then market.yesPrice else market.noPrice)
              | none => 0).sum,
       b + (positions.map fun p =>
              match markets.find? (fun m => m.id == p.marketId) with
              | some _ => p.invested
              | none => 0).sum) := by
  induction positions generalizing a b with
  | nil => simp
  | cons p ps ih =>
    simp only [List.foldl_cons, List.map_cons, List.sum_cons]
    cases hf : markets.find? (fun m => m.id == p.marketId) with
    | none =>
      simp only [portfolioStep, hf, ih, zero_add]
    | some market =>
      simp only [portfolioStep, hf, ih]
      simp only [Prod.mk.injEq]
      constructor <;> ring

/-- The clamp of lines 234-235 lands in `[0.01, 0.99]`. -/
theorem clampPrice_mem (x : ℚ) : 1 / 100 ≤ clampPrice x ∧ clampPrice x ≤ 99 / 100 := by
  unfold clampPrice
  refine ⟨le_max_left _ _, max_le (by norm_num) (min_le_left _ _)⟩

/-- Renormalizing two clamped prices keeps each ratio inside `[0.01, 0.99]`. -/
theorem ratio_mem (a b : ℚ) (ha1 : 1 / 100 ≤ a) (ha2 : a ≤ 99 / 100)
    (hb1 : 1 / 100 ≤ b) (hb2 : b ≤ 99 / 100) :
    1 / 100 ≤ a / (a + b) ∧ a / (a + b) ≤ 99 / 100 := by
  have htot : 0 < a + b := by linarith
  constructor
  · rw [le_div_iff₀ htot]
    linarith
  · rw [div_le_iff₀ htot]
    linarith

/-- Rounding to two decimals keeps a value of `[0.01, 0.99]` inside it. -/
theorem round2_mem (x : ℚ) (h1 : 1 / 100 ≤ x) (h2 : x ≤ 99 / 100) :
    1 / 100 ≤ round2 x ∧ round2 x ≤ 99 / 100 := by
  unfold round2
  have hlb := sub_half_lt_round (x * 100)
  have hub := round_le_add_half (x * 100)
  have hl : (1 : ℚ) ≤ (round (x * 100) : ℚ) := by
    have h4 : (0 : ℚ) < (round (x * 100) : ℚ) := by linarith
    have h5 : (0 : ℤ) < round (x * 100) := by exact_mod_cast h4
    exact_mod_cast h5
  have hu : (round (x * 100) : ℚ) ≤ 99 := by
    have h4 : (round (x * 100) : ℚ) < 100 := by linarith
    have h5 : round (x * 100) < (100 : ℤ) := by exact_mod_cast h4
    have h6 : round (x * 100) ≤ (99 : ℤ) := by omega
    exact_mod_cast h6
  constructor <;> linarith

/-- Rounding to two decimals moves a value by at most half a cent. -/
theorem round2_close (x : ℚ) : |round2 x - x| ≤ 1 / 200 := by
  unfold round2
  have h := abs_sub_round (x * 100)
  have e : (round (x * 100) : ℚ) / 100 - x = (x * 100 - (round (x * 100) : ℚ)) * (-1 / 100) := by
    ring
  rw [e, abs_mul]
  have e2 : |(-1 : ℚ) / 100| = 1 / 100 := by norm_num
  rw [e2]
  nlinarith [abs_nonneg (x * 100 - (round (x * 100) : ℚ))]

/-! ### Claim theorems -/

/-- C1: For every valid trade (positive investment within balance, known
market with a positive price on the traded side), `placeTrade` succeeds and
returns `shares = floor(investment / price * 100) / 100` with `price` the
side's current market price, `actualCost = shares * price`, and
`actualCost ≤ investment`: the truncation never overspends. -/
theorem trade_shares_truncation_no_overspend
    (now marketId : Int) (side : String) (investment : ℚ)
    (s : TradeState) (market : Market)
    (hm : s.markets.find? (fun m => m.id == marketId) = some market)
    (h1 : 0 < investment) (h2 : investment ≤ s.userBalance)
    (hp : 0 < (if side == "yes" then market.yesPrice else market.noPrice)) :
    ∃ r, (placeTrade now marketId side investment s).1 = Except.ok r ∧
      r.price = (if side == "yes" then market.yesPrice else market.noPrice) ∧
      r.shares = (⌊investment / r.price * 100⌋ : ℚ) / 100 ∧
      r.actualCost = r.shares * r.price ∧
      r.actualCost ≤ investment := by
  rw [placeTrade_success now marketId side investment s market hm h1 h2]
  exact ⟨_, rfl, rfl, rfl, rfl, floorShares_mul_le investment _ hp⟩

/-- Witness for C1: the spec's worked example shape, at market 1 of the mock
data (price 0.68), investing 16.25 out of the 1000 balance. -/
theorem trade_shares_truncation_no_overspend_witness :
    (mockState.markets.find? (fun m => m.id == 1) =
      some { id := 1, yesPrice := 0.68, noPrice := 0.32, totalVolume := 2450,
             status := "active" }) ∧
    (0 : ℚ) < 16.25 ∧ (16.25 : ℚ) ≤ mockState.userBalance ∧
    (∃ r, (placeTrade 0 1 "yes" (16.25 : ℚ) mockState).1 = Except.ok r ∧
      r.price = (if "yes" == "yes" then (0.68 : ℚ) else (0.32 : ℚ)) ∧
      r.shares = (⌊(16.25 : ℚ) / r.price * 100⌋ : ℚ) / 100 ∧
      r.actualCost = r.shares * r.price ∧
      r.actualCost ≤ (16.25 : ℚ)) :=
  ⟨rfl, by norm_num, by norm_num [mockState],
   trade_shares_truncation_no_overspend 0 1 "yes" (16.25 : ℚ) mockState
     { id := 1, yesPrice := 0.68, noPrice := 0.32, totalVolume := 2450, status := "active" }
     rfl (by norm_num) (by norm_num [mockState]) (by norm_num)⟩

/-- C2: For every valid trade, the returned new balance is exactly the old
balance minus the actual cost, it is nonnegative, and the stored balance
after the call equals it. -/
theorem trade_balance_deduction
    (now marketId : Int) (side : String) (investment : ℚ)
    (s : TradeState) (market : Market)
    (hm : s.markets.find? (fun m => m.id == marketId) = some market)
    (h1 : 0 < investment) (h2 : investment ≤ s.userBalance)
    (hp : 0 < (if side == "yes" then market.yesPrice else market.noPrice)) :
    ∃ r, (placeTrade now marketId side investment s).1 = Except.ok r ∧
      r.newBalance = s.userBalance - r.actualCost ∧
      0 ≤ r.newBalance ∧
      ((placeTrade now marketId side investment s).2).userBalance = r.newBalance := by
  rw [placeTrade_success now marketId side investment s market hm h1 h2]
  refine ⟨_, rfl, rfl, ?_, rfl⟩
  have hc := floorShares_mul_le investment _ hp
  show (0 : ℚ) ≤ s.userBalance - _
  linarith

/-- Witness for C2 at market 1 of the mock data. -/
theorem trade_balance_deduction_witness :
    (mockState.markets.find? (fun m => m.id == 1) =
      some { id := 1, yesPrice := 0.68, noPrice := 0.32, totalVolume := 2450,
             status := "active" }) ∧
    (0 : ℚ) < 16.25 ∧ (16.25 : ℚ) ≤ mockState.userBalance ∧
    (∃ r, (placeTrade 0 1 "yes" (16.25 : ℚ) mockState).1 = Except.ok r ∧
      r.newBalance = mockState.userBalance - r.actualCost ∧
      0 ≤ r.newBalance ∧
      ((placeTrade 0 1 "yes" (16.25 : ℚ) mockState).2).userBalance = r.newBalance) :=
  ⟨rfl, by norm_num, by norm_num [mockState],
   trade_balance_deduction 0 1 "yes" (16.25 : ℚ) mockState
     { id := 1, yesPrice := 0.68, noPrice := 0.32, totalVolume := 2450, status := "active" }
     rfl (by norm_num) (by norm_num [mockState]) (by norm_num)⟩

/-- C5: Every failing `placeTrade` call leaves the whole state untouched:
same balance, same transaction log, same positions (trade atomicity). -/
theorem trade_failure_atomicity
    (now marketId : Int) (side : String) (investment : ℚ)
    (s : TradeState) (e : TradeError)
    (h : (placeTrade now marketId side investment s).1 = Except.error e) :
    (placeTrade now marketId side investment s).2 = s ∧
    ((placeTrade now marketId side investment s).2).userBalance = s.userBalance ∧
    ((placeTrade now marketId side investment s).2).transactions = s.transactions ∧
    ((placeTrade now marketId side investment s).2).positions = s.positions := by
  have h2 := placeTrade_error_state now marketId side investment s e h
  exact ⟨h2, by rw [h2], by rw [h2], by rw [h2]⟩

/-- Witness for C5: investing 5000 against the mock balance of 1000 fails
with `insufficientBalance` and changes nothing. -/
theorem trade_failure_atomicity_witness :
    ((placeTrade 0 1 "yes" (5000 : ℚ) mockState).1 =
      Except.error TradeError.insufficientBalance) ∧
    ((placeTrade 0 1 "yes" (5000 : ℚ) mockState).2 = mockState ∧
     ((placeTrade 0 1 "yes" (5000 : ℚ) mockState).2).userBalance = mockState.userBalance ∧
     ((placeTrade 0 1 "yes" (5000 : ℚ) mockState).2).transactions = mockState.transactions ∧
     ((placeTrade 0 1 "yes" (5000 : ℚ) mockState).2).positions = mockState.positions) :=
  ⟨rfl,
   trade_failure_atomicity 0 1 "yes" (5000 : ℚ) mockState
     TradeError.insufficientBalance rfl⟩

/-- C10: Every `placeTrade` call, successful or failing, leaves the markets
array — and with it every market's `yesPrice`, `noPrice`, `totalVolume` and
`status` — exactly as it was. -/
theorem trade_markets_frame
    (now marketId : Int) (side : String) (investment : ℚ) (s : TradeState) :
    ((placeTrade now marketId side investment s).2).markets = s.markets :=
  placeTrade_markets now marketId side investment s

/-- Counterexample to C4: trading on a market whose status is `"closed"`
succeeds; `placeTrade` never consults the status, so no `MarketInactive`
failure exists. -/
theorem trade_inactive_market_counterexample :
    ∃ r, (placeTrade 0 7 "yes" (10 : ℚ)
      { markets := [{ id := 7, yesPrice := 1/2, noPrice := 1/2, totalVolume := 0,
                      status := "closed" }],
        userBalance := 100, positions := [], transactions := [] }).1 = Except.ok r :=
  ⟨_, rfl⟩

/-- C4 (amended): `placeTrade` fails with `marketNotFound` exactly when the
market id is unknown; otherwise with `invalidAmount` exactly when
`investment ≤ 0`; otherwise with `insufficientBalance` exactly when
`investment > balance`; the market status is never checked, and on every
other input the trade succeeds. -/
theorem trade_error_taxonomy
    (now marketId : Int) (side : String) (investment : ℚ) (s : TradeState) :
    (((placeTrade now marketId side investment s).1 =
        Except.error TradeError.marketNotFound) ↔
      s.markets.find? (fun m => m.id == marketId) = none) ∧
    (((placeTrade now marketId side investment s).1 =
        Except.error TradeError.invalidAmount) ↔
      ((s.markets.find? (fun m => m.id == marketId)).isSome ∧ investment ≤ 0)) ∧
    (((placeTrade now marketId side investment s).1 =
        Except.error TradeError.insufficientBalance) ↔
      ((s.markets.find? (fun m => m.id == marketId)).isSome ∧ 0 < investment ∧
        s.userBalance < investment)) ∧
    ((∃ r, (placeTrade now marketId side investment s).1 = Except.ok r) ↔
      ((s.markets.find? (fun m => m.id == marketId)).isSome ∧ 0 < investment ∧
        investment ≤ s.userBalance)) := by
  unfold placeTrade
  cases hfind : s.markets.find? (fun m => m.id == marketId) with
  | none => simp
  | some market =>
    dsimp only
    by_cases h1 : investment ≤ 0
    · rw [if_pos h1]
      simp [h1, not_lt.mpr h1]
    · by_cases h2 : investment > s.userBalance
      · rw [if_neg h1, if_pos h2]
        simp [not_le.mp h1, h2, not_le.mpr h2]
      · rw [if_neg h1, if_neg h2]
        simp [not_le.mp h1, not_lt.mp h2, h1, h2]

/-- C9: an investment small enough that shares truncate to 0 (investment
below one hundredth of the price) still succeeds: shares = 0, actualCost =
0, balance unchanged, and the call still appends a transaction and upserts
a position for the key instead of rejecting the trade. -/
theorem trade_zero_shares_succeeds
    (now marketId : Int) (side : String) (investment : ℚ)
    (s : TradeState) (market : Market)
    (hm : s.markets.find? (fun m => m.id == marketId) = some market)
    (h1 : 0 < investment) (h2 : investment ≤ s.userBalance)
    (hsmall : investment <
      (if side == "yes" then market.yesPrice else market.noPrice) / 100) :
    ∃ r, (placeTrade now marketId side investment s).1 = Except.ok r ∧
      r.shares = 0 ∧ r.actualCost = 0 ∧ r.newBalance = s.userBalance ∧
      ((placeTrade now marketId side investment s).2).userBalance = s.userBalance ∧
      (∃ t, ((placeTrade now marketId side investment s).2).transactions =
          s.transactions ++ [t] ∧ t.type = "trade" ∧ t.amount = 0) ∧
      (∃ p ∈ ((placeTrade now marketId side investment s).2).positions,
          p.marketId = marketId ∧ p.side = side) := by
  have hp : 0 < (if side == "yes" then market.yesPrice else market.noPrice) := by
    by_contra hcon
    push_neg at hcon
    have : (if side == "yes" then market.yesPrice else market.noPrice) / 100 ≤ 0 := by
      linarith
    linarith
  have hfl : ⌊investment / (if side == "yes" then market.yesPrice else market.noPrice)
      * 100⌋ = 0 := by
    rw [Int.floor_eq_zero_iff]
    refine Set.mem_Ico.mpr ⟨?_, ?_⟩
    · exact mul_nonneg (div_nonneg h1.le hp.le) (by norm_num)
    · have he : investment / (if side == "yes" then market.yesPrice else market.noPrice)
          * 100 = investment * 100 /
            (if side == "yes" then market.yesPrice else market.noPrice) := by
        ring
      rw [he, div_lt_one hp]
      linarith
  rw [placeTrade_success now marketId side investment s market hm h1 h2]
  refine ⟨_, rfl, ?_, ?_, ?_, ?_, ?_, ?_⟩
  · show ((⌊investment / (if side == "yes" then market.yesPrice else market.noPrice)
      * 100⌋ : ℚ) / 100 : ℚ) = 0
    rw [hfl]
    norm_num
  · show ((⌊investment / (if side == "yes" then market.yesPrice else market.noPrice)
      * 100⌋ : ℚ) / 100 : ℚ) *
        (if side == "yes" then market.yesPrice else market.noPrice) = 0
    rw [hfl]
    norm_num
  · show s.userBalance - ((⌊investment /
      (if side == "yes" then market.yesPrice else market.noPrice) * 100⌋ : ℚ) / 100) *
        (if side == "yes" then market.yesPrice else market.noPrice) = s.userBalance
    rw [hfl]
    norm_num
  · show s.userBalance - ((⌊investment /
      (if side == "yes" then market.yesPrice else market.noPrice) * 100⌋ : ℚ) / 100) *
        (if side == "yes" then market.yesPrice else market.noPrice) = s.userBalance
    rw [hfl]
    norm_num
  · refine ⟨_, rfl, rfl, ?_⟩
    show -(((⌊investment / (if side == "yes" then market.yesPrice else market.noPrice)
      * 100⌋ : ℚ) / 100) *
        (if side == "yes" then market.yesPrice else market.noPrice)) = 0
    rw [hfl]
    norm_num
  · exact upsertPosition_key_mem now marketId side _ _ _ s.positions

/-- Witness for C9: investing half a cent at market 1 (price 0.68) truncates
to zero shares yet succeeds. -/
theorem trade_zero_shares_succeeds_witness :
    (mockState.markets.find? (fun m => m.id == 1) =
      some { id := 1, yesPrice := 0.68, noPrice := 0.32, totalVolume := 2450,
             status := "active" }) ∧
    (0 : ℚ) < 1/200 ∧ ((1 : ℚ)/200) ≤ mockState.userBalance ∧
    ((1 : ℚ)/200) < (if "yes" == "yes" then (0.68 : ℚ) else (0.32 : ℚ)) / 100 ∧
    (∃ r, (placeTrade 0 1 "yes" ((1 : ℚ)/200) mockState).1 = Except.ok r ∧
      r.shares = 0 ∧ r.actualCost = 0 ∧ r.newBalance = mockState.userBalance ∧
      ((placeTrade 0 1 "yes" ((1 : ℚ)/200) mockState).2).userBalance =
        mockState.userBalance ∧
      (∃ t, ((placeTrade 0 1 "yes" ((1 : ℚ)/200) mockState).2).transactions =
          mockState.transactions ++ [t] ∧ t.type = "trade" ∧ t.amount = 0) ∧
      (∃ p ∈ ((placeTrade 0 1 "yes" ((1 : ℚ)/200) mockState).2).positions,
          p.marketId = 1 ∧ p.side = "yes")) :=
  ⟨rfl, by norm_num, by norm_num [mockState], by norm_num,
   trade_zero_shares_succeeds 0 1 "yes" ((1 : ℚ)/200) mockState
     { id := 1, yesPrice := 0.68, noPrice := 0.32, totalVolume := 2450, status := "active" }
     rfl (by norm_num) (by norm_num [mockState]) (by norm_num)⟩

/-- A one-market state with price 1/2 and no positions, used to exhibit the
zero-share first trade. -/
def zeroShareState : TradeState :=
  { markets := [{ id := 1, yesPrice := 1/2, noPrice := 1/2, totalVolume := 0,
                  status := "active" }],
    userBalance := 10, positions := [], transactions := [] }

/-- Counterexample to C3: a first trade whose shares truncate to zero
creates a position with `avgPrice` equal to the market price (line 350 sets
`avgPrice: price`), not to `cost / shares`, which is `0 / 0`. -/
theorem trade_new_position_avgPrice_counterexample :
    ∃ p, ((placeTrade 0 1 "yes" ((1 : ℚ)/1000) zeroShareState).2).positions = [p] ∧
      p.shares = 0 ∧ p.invested = 0 ∧ p.avgPrice = 1/2 ∧
      p.avgPrice ≠ p.invested / p.shares := by
  have hm : zeroShareState.markets.find? (fun m => m.id == 1) =
      some { id := 1, yesPrice := 1/2, noPrice := 1/2, totalVolume := 0,
             status := "active" } := rfl
  rw [placeTrade_success 0 1 "yes" ((1 : ℚ)/1000) zeroShareState _ hm (by norm_num)
    (by norm_num [zeroShareState])]
  dsimp only
  rw [upsertPosition_create 0 1 "yes" _ _ _ zeroShareState.positions
    (by intro q hq; simp [zeroShareState] at hq)]
  refine ⟨_, rfl, ?_, ?_, ?_, ?_⟩
  · show ((⌊(1 : ℚ)/1000 / (if "yes" == "yes" then (1 : ℚ)/2 else 1/2) * 100⌋ : ℚ)
      / 100 : ℚ) = 0
    norm_num
  · show ((⌊(1 : ℚ)/1000 / (if "yes" == "yes" then (1 : ℚ)/2 else 1/2) * 100⌋ : ℚ)
      / 100 : ℚ) * (if "yes" == "yes" then (1 : ℚ)/2 else 1/2) = 0
    norm_num
  · show (if "yes" == "yes" then (1 : ℚ)/2 else 1/2) = 1/2
    norm_num
  · show (if "yes" == "yes" then (1 : ℚ)/2 else 1/2) ≠
      (((⌊(1 : ℚ)/1000 / (if "yes" == "yes" then (1 : ℚ)/2 else 1/2) * 100⌋ : ℚ) / 100)
          * (if "yes" == "yes" then (1 : ℚ)/2 else 1/2)) /
        ((⌊(1 : ℚ)/1000 / (if "yes" == "yes" then (1 : ℚ)/2 else 1/2) * 100⌋ : ℚ) / 100)
    norm_num

/-- C3 (amended): for every valid trade, a second trade on an existing
`(marketId, side)` key mutates the position in place — `newShares =
old.shares + shares`, `newInvested = old.invested + cost`, `avgPrice =
newInvested / newShares`, and the original first-trade `purchaseDate` is
kept; a first trade on a key appends one new position whose `avgPrice` is
the market price (equal to `cost / shares` whenever `shares ≠ 0`) and whose
`purchaseDate` is the trade date; key uniqueness (at most one position per
market per side) is preserved. -/
theorem trade_position_upsert
    (now marketId : Int) (side : String) (investment : ℚ)
    (s : TradeState) (market : Market) (price shares cost : ℚ)
    (hm : s.markets.find? (fun m => m.id == marketId) = some market)
    (h1 : 0 < investment) (h2 : investment ≤ s.userBalance)
    (hprice : price = if side == "yes" then market.yesPrice else market.noPrice)
    (hshares : shares = (⌊investment / price * 100⌋ : ℚ) / 100)
    (hcost : cost = shares * price) :
    ((∀ q ∈ s.positions, matchKey marketId side q = false) →
      ((placeTrade now marketId side investment s).2).positions =
        s.positions ++
          [{ id := "pos_" ++ toString now, marketId := marketId, side := side,
             shares := shares, avgPrice := price, invested := cost,
             purchaseDate := now }] ∧
      (shares ≠ 0 → price = cost / shares)) ∧
    (∀ pre old post, s.positions = pre ++ old :: post →
      (∀ q ∈ pre, matchKey marketId side q = false) →
      matchKey marketId side old = true →
      ((placeTrade now marketId side investment s).2).positions =
        pre ++ ({ old with shares := old.shares + shares,
                           avgPrice := (old.invested + cost) / (old.shares + shares),
                           invested := old.invested + cost } :: post)) ∧
    (atMostOnePerKey s.positions →
      atMostOnePerKey ((placeTrade now marketId side investment s).2).positions) := by
  subst hprice
  subst hshares
  subst hcost
  rw [placeTrade_success now marketId side investment s market hm h1 h2]
  dsimp only
  refine ⟨fun hnone => ⟨?_, fun hsz => ?_⟩, fun pre old post hdec hpre hold => ?_,
    fun huniq => ?_⟩
  · rw [upsertPosition_create now marketId side _ _ _ s.positions hnone]
  · rw [mul_comm, mul_div_assoc, div_self hsz, mul_one]
  · rw [hdec, upsertPosition_merge now marketId side _ _ _ pre old post hpre hold]
  · exact upsertPosition_pairwise now marketId side _ _ _ s.positions huniq

/-- Witness for C3 (amended) at market 5 of the mock data: price 0.25,
investing 10 gives 40 shares at cost 10. -/
theorem trade_position_upsert_witness :
    (mockState.markets.find? (fun m => m.id == 5) =
      some { id := 5, yesPrice := 0.25, noPrice := 0.75, totalVolume := 890,
             status := "active" }) ∧
    (0 : ℚ) < 10 ∧ (10 : ℚ) ≤ mockState.userBalance ∧
    ((0.25 : ℚ) = if "yes" == "yes" then (0.25 : ℚ) else (0.75 : ℚ)) ∧
    ((40 : ℚ) = (⌊(10 : ℚ) / (0.25 : ℚ) * 100⌋ : ℚ) / 100) ∧
    ((10 : ℚ) = (40 : ℚ) * (0.25 : ℚ)) ∧
    (((∀ q ∈ mockState.positions, matchKey 5 "yes" q = false) →
      ((placeTrade 0 5 "yes" (10 : ℚ) mockState).2).positions =
        mockState.positions ++
          [{ id := "pos_" ++ toString (0 : Int), marketId := 5, side := "yes",
             shares := 40, avgPrice := 0.25, invested := 10,
             purchaseDate := 0 }] ∧
      ((40 : ℚ) ≠ 0 → (0.25 : ℚ) = 10 / 40)) ∧
    (∀ pre old post, mockState.positions = pre ++ old :: post →
      (∀ q ∈ pre, matchKey 5 "yes" q = false) →
      matchKey 5 "yes" old = true →
      ((placeTrade 0 5 "yes" (10 : ℚ) mockState).2).positions =
        pre ++ ({ old with shares := old.shares + 40,
                           avgPrice := (old.invested + 10) / (old.shares + 40),
                           invested := old.invested + 10 } :: post)) ∧
    (atMostOnePerKey mockState.positions →
      atMostOnePerKey ((placeTrade 0 5 "yes" (10 : ℚ) mockState).2).positions)) :=
  ⟨rfl, by norm_num, by norm_num [mockState], by norm_num, by norm_num, by norm_num,
   trade_position_upsert 0 5 "yes" (10 : ℚ) mockState
     { id := 5, yesPrice := 0.25, noPrice := 0.75, totalVolume := 890, status := "active" }
     (0.25 : ℚ) (40 : ℚ) (10 : ℚ) rfl (by norm_num) (by norm_num [mockState])
     (by norm_num) (by norm_num) (by norm_num)⟩

/-- A single `placeTrade` call preserves the per-position ledger invariant,
provided every market price is positive. -/
theorem placeTrade_positionOk (now marketId : Int) (side : String) (investment : ℚ)
    (s : TradeState)
    (hM : ∀ m ∈ s.markets, 0 < m.yesPrice ∧ 0 < m.noPrice)
    (hP : ∀ p ∈ s.positions, positionOk p) :
    ∀ p ∈ ((placeTrade now marketId side investment s).2).positions, positionOk p := by
  cases hfind : s.markets.find? (fun m => m.id == marketId) with
  | none =>
    have he : (placeTrade now marketId side investment s).2 = s := by
      unfold placeTrade
      rw [hfind]
    rw [he]
    exact hP
  | some market =>
    by_cases h1 : investment ≤ 0
    · have he : (placeTrade now marketId side investment s).2 = s := by
        unfold placeTrade
        rw [hfind]
        dsimp only
        rw [if_pos h1]
      rw [he]
      exact hP
    · by_cases h2 : investment > s.userBalance
      · have he : (placeTrade now marketId side investment s).2 = s := by
          unfold placeTrade
          rw [hfind]
          dsimp only
          rw [if_neg h1, if_pos h2]
        rw [he]
        exact hP
      · rw [placeTrade_success now marketId side investment s market hfind
          (not_le.mp h1) (not_lt.mp h2)]
        dsimp only
        have hmem : market ∈ s.markets := List.mem_of_find?_eq_some hfind
        have hpr : 0 < (if side == "yes" then market.yesPrice else market.noPrice) := by
          rcases hM market hmem with ⟨hy, hn⟩
          split <;> assumption
        have hinv : (0 : ℚ) < investment := not_le.mp h1
        have hsh : 0 ≤ ((⌊investment /
            (if side == "yes" then market.yesPrice else market.noPrice) * 100⌋ : ℚ) / 100) := by
          apply div_nonneg _ (by norm_num)
          have hx : (0 : ℤ) ≤ ⌊investment /
              (if side == "yes" then market.yesPrice else market.noPrice) * 100⌋ :=
            Int.floor_nonneg.mpr
              (mul_nonneg (div_nonneg hinv.le hpr.le) (by norm_num))
          exact_mod_cast hx
        exact upsertPosition_positionOk now marketId side _ _ hsh hpr.le s.positions hP

/-- Running any list of trade requests preserves the ledger invariant. -/
theorem runTrades_positionOk (reqs : List TradeRequest) (s : TradeState)
    (hM : ∀ m ∈ s.markets, 0 < m.yesPrice ∧ 0 < m.noPrice)
    (hP : ∀ p ∈ s.positions, positionOk p) :
    ∀ p ∈ (runTrades s reqs).positions, positionOk p := by
  induction reqs generalizing s with
  | nil => exact hP
  | cons r rs ih =>
    show ∀ p ∈ (runTrades ((placeTrade r.now r.marketId r.side r.investment s).2) rs).positions,
      positionOk p
    apply ih
    · intro m hmem
      rw [placeTrade_markets r.now r.marketId r.side r.investment s] at hmem
      exact hM m hmem
    · exact placeTrade_positionOk r.now r.marketId r.side r.investment s hM hP

/-- The two invariant readings coincide: from `invested = shares * avgPrice`
the cost-weighted-average form follows whenever shares are nonzero. -/
theorem positionOk_avg (p : Position) (h : positionOk p) :
    p.invested = p.shares * p.avgPrice ∧
      (p.shares ≠ 0 → p.avgPrice = p.invested / p.shares) := by
  obtain ⟨-, -, he⟩ := h
  refine ⟨he, fun hz => ?_⟩
  rw [he, mul_comm, mul_div_assoc, div_self hz, mul_one]

/-- Counterexample to C6: two zero-share trades on the same fresh key (both
pass every validation) reach the merge branch of line 335 with `totalShares
= old.shares + shares = 0`.  The stored position has `shares = 0` and
`invested = 0`, and the source's `avgPrice = totalInvested / totalShares`
is `0 / 0`, which is `NaN` in JavaScript — `jsDiv p.invested p.shares =
none` records that no rational value satisfies the formula there.  So
`invested = shares * avgPrice` reads `0 = 0 * NaN = NaN` in the source and
fails beyond any tolerance. -/
theorem zero_share_merge_counterexample :
    ∃ p, ((placeTrade 1 1 "yes" ((1 : ℚ)/1000)
        ((placeTrade 0 1 "yes" ((1 : ℚ)/1000) zeroShareState).2)).2).positions = [p] ∧
      p.shares = 0 ∧ p.invested = 0 ∧ jsDiv p.invested p.shares = none := by
  have hPos : ((placeTrade 0 1 "yes" ((1 : ℚ)/1000) zeroShareState).2).positions =
      [{ id := "pos_" ++ toString (0 : Int), marketId := 1, side := "yes", shares := 0,
         avgPrice := 1/2, invested := 0, purchaseDate := 0 }] := by
    rw [placeTrade_success 0 1 "yes" ((1 : ℚ)/1000) zeroShareState
      { id := 1, yesPrice := 1/2, noPrice := 1/2, totalVolume := 0, status := "active" }
      rfl (by norm_num) (by norm_num [zeroShareState])]
    dsimp only
    rw [upsertPosition_create 0 1 "yes" _ _ _ zeroShareState.positions
      (by intro q hq; simp [zeroShareState] at hq)]
    simp only [zeroShareState, List.nil_append, List.cons.injEq, Position.mk.injEq,
      and_true, true_and]
    norm_num
  have hBal : ((1 : ℚ)/1000) ≤
      ((placeTrade 0 1 "yes" ((1 : ℚ)/1000) zeroShareState).2).userBalance := by
    rw [placeTrade_success 0 1 "yes" ((1 : ℚ)/1000) zeroShareState
      { id := 1, yesPrice := 1/2, noPrice := 1/2, totalVolume := 0, status := "active" }
      rfl (by norm_num) (by norm_num [zeroShareState])]
    dsimp only
    norm_num [zeroShareState]
  have hMks : ((placeTrade 0 1 "yes" ((1 : ℚ)/1000) zeroShareState).2).markets.find?
      (fun m => m.id == 1) =
      some { id := 1, yesPrice := 1/2, noPrice := 1/2, totalVolume := 0,
             status := "active" } := by
    rw [placeTrade_markets 0 1 "yes" ((1 : ℚ)/1000) zeroShareState]
    rfl
  rw [placeTrade_success 1 1 "yes" ((1 : ℚ)/1000)
    ((placeTrade 0 1 "yes" ((1 : ℚ)/1000) zeroShareState).2)
    { id := 1, yesPrice := 1/2, noPrice := 1/2, totalVolume := 0, status := "active" }
    hMks (by norm_num) hBal]
  dsimp only
  rw [hPos]
  rw [upsertPosition_merge_singleton 1 1 "yes" _ _ _
    { id := "pos_" ++ toString (0 : Int), marketId := 1, side := "yes", shares := 0,
      avgPrice := 1/2, invested := 0, purchaseDate := 0 } rfl]
  refine ⟨_, rfl, ?_, ?_, ?_⟩
  · norm_num
  · norm_num
  · norm_num [jsDiv]

/-- C6 (amended): for every position reachable by any sequence of trades
from a state with positive market prices and invariant-satisfying
positions, whenever the position holds a nonzero number of shares,
`invested = shares * avgPrice` holds exactly (hence within tolerance 1e-9)
and `avgPrice` equals total invested divided by total shares.  A position
with zero shares — reachable only through zero-share trades — receives
`avgPrice = 0 / 0` (`NaN` in the source) on a zero-share merge, where the
invariant fails. -/
theorem trades_preserve_avgPrice_invariant
    (s : TradeState) (reqs : List TradeRequest)
    (hM : ∀ m ∈ s.markets, 0 < m.yesPrice ∧ 0 < m.noPrice)
    (hP : ∀ p ∈ s.positions, positionOk p) :
    ∀ p ∈ (runTrades s reqs).positions, p.shares ≠ 0 →
      p.invested = p.shares * p.avgPrice ∧ p.avgPrice = p.invested / p.shares := by
  intro p hp hz
  obtain ⟨he, hav⟩ := positionOk_avg p (runTrades_positionOk reqs s hM hP p hp)
  exact ⟨he, hav hz⟩

/-- Witness for C6 (amended): the mock state (whose two seeded positions
satisfy the invariant) followed by one further trade. -/
theorem trades_preserve_avgPrice_invariant_witness :
    (∀ m ∈ mockState.markets, 0 < m.yesPrice ∧ 0 < m.noPrice) ∧
    (∀ p ∈ mockState.positions, positionOk p) ∧
    (∀ p ∈ (runTrades mockState
        [{ now := 0, marketId := 1, side := "yes", investment := 10 }]).positions,
      p.shares ≠ 0 →
      p.invested = p.shares * p.avgPrice ∧ p.avgPrice = p.invested / p.shares) := by
  have hM : ∀ m ∈ mockState.markets, 0 < m.yesPrice ∧ 0 < m.noPrice := by
    intro m hmem
    simp only [mockState, mockMarkets, List.mem_cons, List.not_mem_nil, or_false] at hmem
    rcases hmem with h | h | h | h | h | h <;> subst h <;> constructor <;> norm_num
  have hP : ∀ p ∈ mockState.positions, positionOk p := by
    intro p hmem
    simp only [mockState, mockPositions, List.mem_cons, List.not_mem_nil, or_false] at hmem
    rcases hmem with h | h <;> subst h <;>
      exact ⟨by norm_num, by norm_num, by norm_num⟩
  exact ⟨hM, hP,
    trades_preserve_avgPrice_invariant mockState
      [{ now := 0, marketId := 1, side := "yes", investment := 10 }] hM hP⟩

/-- C7: for every positions list and markets list, `calculatePortfolioValue`
returns `totalValue` = the sum over positions with a matching market of
`shares * (yesPrice if side is yes else noPrice)`, `totalInvested` = the sum
of those positions' `invested`, `pnl = totalValue - totalInvested`, and
`pnlPercentage = pnl / totalInvested * 100` when `totalInvested > 0` and `0`
otherwise; positions with a missing market contribute nothing to any total. -/
theorem calculatePortfolio_spec (positions : List Position) (markets : List Market) :
    (calculatePortfolioValue positions markets).totalValue =
      (positions.map fun p =>
        match markets.find? (fun m => m.id == p.marketId) with
        | some market =>
            p.shares * (if p.side == "yes" then market.yesPrice else market.noPrice)
        | none => 0).sum ∧
    (calculatePortfolioValue positions markets).totalInvested =
      (positions.map fun p =>
        match markets.find? (fun m => m.id == p.marketId) with
        | some _ => p.invested
        | none => 0).sum ∧
    (calculatePortfolioValue positions markets).pnl =
      (calculatePortfolioValue positions markets).totalValue -
        (calculatePortfolioValue positions markets).totalInvested ∧
    (calculatePortfolioValue positions markets).pnlPercentage =
      (if 0 < (calculatePortfolioValue positions markets).totalInvested then
        (calculatePortfolioValue positions markets).pnl /
          (calculatePortfolioValue positions markets).totalInvested * 100
       else 0) := by
  unfold calculatePortfolioValue
  dsimp only
  rw [portfolioStep_foldl markets positions 0 0]
  dsimp only
  refine ⟨by rw [zero_add], by rw [zero_add], rfl, rfl⟩

/-- C8: for every market and per-price deltas in `[-0.01, 0.01]`, a price
refresh clamps each perturbed price to `[0.01, 0.99]`, renormalizes by the
sum and rounds to two decimals, after which `yesPrice + noPrice` is within
`0.01` of `1.00` and both prices lie strictly in `(0, 1)`. -/
theorem refresh_prices_normalized (m : Market) (dYes dNo : ℚ)
    (h1 : -(1/100) ≤ dYes) (h2 : dYes ≤ 1/100)
    (h3 : -(1/100) ≤ dNo) (h4 : dNo ≤ 1/100) :
    |(refreshMarket dYes dNo m).yesPrice + (refreshMarket dYes dNo m).noPrice - 1|
        ≤ 1/100 ∧
      0 < (refreshMarket dYes dNo m).yesPrice ∧
      (refreshMarket dYes dNo m).yesPrice < 1 ∧
      0 < (refreshMarket dYes dNo m).noPrice ∧
      (refreshMarket dYes dNo m).noPrice < 1 := by
  unfold refreshMarket
  dsimp only
  obtain ⟨hy1, hy2⟩ := clampPrice_mem (m.yesPrice + dYes)
  obtain ⟨hn1, hn2⟩ := clampPrice_mem (m.noPrice + dNo)
  set a := clampPrice (m.yesPrice + dYes) with ha
  set b := clampPrice (m.noPrice + dNo) with hb
  have htot : 0 < a + b := by linarith
  obtain ⟨hra1, hra2⟩ := ratio_mem a b hy1 hy2 hn1 hn2
  obtain ⟨hrb1, hrb2⟩ := ratio_mem b a hn1 hn2 hy1 hy2
  rw [add_comm b a] at hrb1 hrb2
  obtain ⟨hya, hyb⟩ := round2_mem (a / (a + b)) hra1 hra2
  obtain ⟨hna, hnb⟩ := round2_mem (b / (a + b)) hrb1 hrb2
  have hc1 := round2_close (a / (a + b))
  have hc2 := round2_close (b / (a + b))
  have hsum : a / (a + b) + b / (a + b) = 1 := by
    rw [div_add_div_same, div_self htot.ne.symm]
  refine ⟨?_, by linarith, by linarith, by linarith, by linarith⟩
  have hdiff : round2 (a / (a + b)) + round2 (b / (a + b)) - 1 =
      (round2 (a / (a + b)) - a / (a + b)) + (round2 (b / (a + b)) - b / (a + b)) := by
    rw [← hsum]
    ring
  rw [hdiff]
  calc |(round2 (a / (a + b)) - a / (a + b)) + (round2 (b / (a + b)) - b / (a + b))|
      ≤ |round2 (a / (a + b)) - a / (a + b)| + |round2 (b / (a + b)) - b / (a + b)| :=
        abs_add _ _
    _ ≤ 1/100 := by linarith

/-- Witness for C8 at market 1 of the mock data with extreme deltas. -/
theorem refresh_prices_normalized_witness :
    (-(1/100) : ℚ) ≤ 1/100 ∧ ((1/100) : ℚ) ≤ 1/100 ∧
    (-(1/100) : ℚ) ≤ -(1/100) ∧ (-(1/100) : ℚ) ≤ 1/100 ∧
    (|(refreshMarket (1/100) (-(1/100))
        { id := 1, yesPrice := 0.68, noPrice := 0.32, totalVolume := 2450,
          status := "active" }).yesPrice +
      (refreshMarket (1/100) (-(1/100))
        { id := 1, yesPrice := 0.68, noPrice := 0.32, totalVolume := 2450,
          status := "active" }).noPrice - 1| ≤ 1/100 ∧
      0 < (refreshMarket (1/100) (-(1/100))
        { id := 1, yesPrice := 0.68, noPrice := 0.32, totalVolume := 2450,
          status := "active" }).yesPrice ∧
      (refreshMarket (1/100) (-(1/100))
        { id := 1, yesPrice := 0.68, noPrice := 0.32, totalVolume := 2450,
          status := "active" }).yesPrice < 1 ∧
      0 < (refreshMarket (1/100) (-(1/100))
        { id := 1, yesPrice := 0.68, noPrice := 0.32, totalVolume := 2450,
          status := "active" }).noPrice ∧
      (refreshMarket (1/100) (-(1/100))
        { id := 1, yesPrice := 0.68, noPrice := 0.32, totalVolume := 2450,
          status := "active" }).noPrice < 1) :=
  ⟨by norm_num, by norm_num, by norm_num, by norm_num,
   refresh_prices_normalized
     { id := 1, yesPrice := 0.68, noPrice := 0.32, totalVolume := 2450, status := "active" }
     (1/100) (-(1/100)) (by norm_num) (by norm_num) (by norm_num) (by norm_num)⟩
